import Mathlib

/-!
Verification of the zeus lock-free MPMC queue (src/include/zeus/slot.hpp,
src/include/zeus/queue.hpp) against its specification.

The queue hands out monotonically increasing tickets from the atomic
counters head (enqueues) and tail (dequeues); ticket i targets slot
i % max_capacity at generation i / max_capacity.  A slot's turn counter
encodes readiness: even value 2g means empty, ready for the writer of
generation g; odd value 2g+1 means full, ready for the reader of
generation g.

The embedding gives each complete queue operation atomic (linearized)
semantics on an explicit state: a concurrent history is an arbitrary
interleaving, i.e. an arbitrary sequence, of these atomic operations.
Inside one operation the single-threaded reduction of the source loops is
used: a CAS on an uncontended counter succeeds, a re-read returns the same
value, and a spin loop whose exit condition fails can never be released,
which is modelled by Option.none (divergence).
-/

namespace zeus

variable {T : Type}

/-- Model of zeus::slot<T>: the turn counter together with the raw storage
cell; storage = some v models a live constructed T, none models
destroyed/uninitialized bytes. -/
structure slot (T : Type) where
  turn : Nat
  storage : Option T
  deriving DecidableEq

namespace slot

/-- slot::construct: placement-new a T into the storage cell. -/
def construct (s : slot T) (v : T) : slot T := { s with storage := some v }

/-- slot::destroy: end the lifetime of the contained T. -/
def destroy (s : slot T) : slot T := { s with storage := none }

/-- slot::move: read the contained T out of the storage cell; none models
reading storage that holds no live object (undefined behaviour in the
source, unreachable from well-formed states). -/
def move (s : slot T) : Option T := s.storage

/-- slot::~slot: destroys the contained value exactly when turn is odd. -/
def dtor (s : slot T) : slot T := if s.turn % 2 ≠ 0 then s.destroy else s

end slot

/-- Model of zeus::queue<T>. The source allocates max_capacity + 1 slots but
placement-constructs and indexes only the first max_capacity of them
(get_idx reduces every ticket modulo max_capacity); the model keeps exactly
the constructed, indexable slots. -/
structure queue (T : Type) where
  max_capacity : Nat
  slots : List (slot T)
  head : Nat
  tail : Nat
  deriving DecidableEq

/-- The state built by queue::queue after a successful, correctly aligned
allocation: max_capacity slots with turn 0 and no contents, head = tail = 0
(std::atomic value-initializes to zero). -/
def mkQueue (T : Type) (capacity : Nat) : queue T :=
  { max_capacity := capacity
    slots := List.replicate capacity { turn := 0, storage := none }
    head := 0
    tail := 0 }

/-- queue::queue including the allocation and the alignment check: alloc is
the address the allocator returns for the slot array, none when the
allocation itself fails (std::bad_alloc from make_unique); the constructor
additionally throws std::bad_alloc when the obtained address is not a
multiple of the required alignment of zeus::slot<T>.  Except.error models
the thrown exception. -/
def queueCtor (T : Type) (capacity : Nat) (alloc : Option Nat) (align : Nat) :
    Except Unit (queue T) :=
  match alloc with
  | none => .error ()
  | some addr => if addr % align ≠ 0 then .error () else .ok (mkQueue T capacity)

/-- queue::get_idx: the slot index of ticket i, i % max_capacity. -/
def get_idx (q : queue T) (i : Nat) : Nat := i % q.max_capacity

/-- queue::get_current_turn: the generation of ticket i, i / max_capacity. -/
def get_current_turn (q : queue T) (i : Nat) : Nat := i / q.max_capacity

/-- Blocking queue::emplace, linearized: fetch_add on head obtains ticket h;
the spin loop exits exactly when the slot turn already equals 2g (no other
operation is in flight to change it), after which the element is
constructed in place and turn 2g+1 is published.  none models the spin
loop never terminating (the queue stays full). -/
def emplace (q : queue T) (v : T) : Option (queue T) :=
  let h := q.head
  let idx := get_idx q h
  match q.slots[idx]? with
  | none => none
  | some sl =>
    if get_current_turn q h * 2 = sl.turn then
      some { q with
        head := h + 1
        slots := q.slots.set idx
          { (sl.construct v) with turn := get_current_turn q h * 2 + 1 } }
    else none

/-- queue::try_emplace, linearized: the compare_exchange_strong on an
uncontended head succeeds and the re-read of head returns the same value,
so the loop body runs once: succeed exactly when the slot turn equals 2g,
otherwise report the queue full.  (With max_capacity = 0 the source
computes h % 0, undefined behaviour; the model then finds no slot and
reports failure.) -/
def try_emplace (q : queue T) (v : T) : Bool × queue T :=
  let h := q.head
  let idx := get_idx q h
  match q.slots[idx]? with
  | none => (false, q)
  | some sl =>
    if get_current_turn q h * 2 = sl.turn then
      (true, { q with
        head := h + 1
        slots := q.slots.set idx
          { (sl.construct v) with turn := get_current_turn q h * 2 + 1 } })
    else (false, q)

/-- queue::push (both overloads): delegates to emplace. -/
def push (q : queue T) (v : T) : Option (queue T) := emplace q v

/-- queue::try_push: delegates to try_emplace. -/
def try_push (q : queue T) (v : T) : Bool × queue T := try_emplace q v

/-- Blocking queue::pop, linearized: fetch_add on tail obtains ticket t; the
spin loop exits exactly when the slot turn equals 2g+1; the element is
moved out, the slot contents destroyed, and turn 2g+2 published.  none
models the spin loop never terminating (the queue stays empty). -/
def pop (q : queue T) : Option (T × queue T) :=
  let t := q.tail
  let idx := get_idx q t
  match q.slots[idx]? with
  | none => none
  | some sl =>
    if get_current_turn q t * 2 + 1 = sl.turn then
      match sl.move with
      | none => none
      | some v =>
        some (v, { q with
          tail := t + 1
          slots := q.slots.set idx
            { sl.destroy with turn := get_current_turn q t * 2 + 2 } })
    else none

/-- queue::try_pop, linearized like try_emplace: succeed exactly when the
slot turn equals 2g+1, moving the element out, destroying it and
publishing turn 2g+2; otherwise report the queue empty, leaving the state
untouched. -/
def try_pop (q : queue T) : Option T × queue T :=
  let t := q.tail
  let idx := get_idx q t
  match q.slots[idx]? with
  | none => (none, q)
  | some sl =>
    if get_current_turn q t * 2 + 1 = sl.turn then
      match sl.move with
      | none => (none, q)
      | some v =>
        (some v, { q with
          tail := t + 1
          slots := q.slots.set idx
            { sl.destroy with turn := get_current_turn q t * 2 + 2 } })
    else (none, q)

/-- queue::size: head - tail as a signed quantity. -/
def size (q : queue T) : Int := (q.head : Int) - (q.tail : Int)

/-- queue::empty: size() <= 0. -/
def empty (q : queue T) : Bool := size q ≤ 0

/-- The number of tickets below n that target slot s: n / capacity complete
generations, plus one when s falls inside the partial generation. -/
def insCount (capacity n s : Nat) : Nat :=
  n / capacity + if s < n % capacity then 1 else 0

/-- Well-formedness of a queue state: the slot array has max_capacity
entries, tail never exceeds head, at most max_capacity tickets are in
flight, and each slot's turn counter and storage cell are determined by how
many enqueue tickets (below head) and dequeue tickets (below tail) target
it: the turn is twice the dequeue count plus one when an enqueued element
is still pending, and the storage holds a live value exactly then. -/
@[reducible]
def WF (q : queue T) : Prop :=
  q.slots.length = q.max_capacity ∧
  q.tail ≤ q.head ∧
  q.head ≤ q.tail + q.max_capacity ∧
  ∀ s : Nat, (hs : s < q.slots.length) →
    insCount q.max_capacity q.tail s ≤ insCount q.max_capacity q.head s ∧
    insCount q.max_capacity q.head s ≤ insCount q.max_capacity q.tail s + 1 ∧
    (q.slots.get ⟨s, hs⟩).turn =
      2 * insCount q.max_capacity q.tail s +
        (insCount q.max_capacity q.head s - insCount q.max_capacity q.tail s) ∧
    ((q.slots.get ⟨s, hs⟩).storage.isSome ↔
      insCount q.max_capacity q.tail s < insCount q.max_capacity q.head s)

/-- The pending contents of the queue, oldest ticket first: entry k is the
storage of the slot targeted by dequeue ticket tail + k. -/
def absO (q : queue T) : List (Option T) :=
  (List.range (q.head - q.tail)).map
    (fun k => (q.slots[get_idx q (q.tail + k)]?).bind slot.storage)

/-- The state produced by a successful enqueue of v with ticket q.head: head
advances, and the target slot holds the constructed value at turn 2g+1.
Both emplace (on loop exit) and try_emplace (on CAS success) produce it. -/
def afterPush (q : queue T) (v : T) : queue T :=
  { q with
    head := q.head + 1
    slots := q.slots.set (get_idx q q.head)
      { turn := get_current_turn q q.head * 2 + 1, storage := some v } }

/-- The state produced by a successful dequeue with ticket q.tail: tail
advances, and the target slot is destroyed and republished at turn 2g+2.
Both pop (on loop exit) and try_pop (on CAS success) produce it. -/
def afterPop (q : queue T) : queue T :=
  { q with
    tail := q.tail + 1
    slots := q.slots.set (get_idx q q.tail)
      { turn := get_current_turn q q.tail * 2 + 2, storage := none } }

/-- One queue call in a history: blocking or non-blocking insert/remove. -/
inductive op (T : Type) where
  | push (v : T)
  | try_push (v : T)
  | pop
  | try_pop
  deriving DecidableEq

/-- Executes a sequence of queue calls, each with its atomic semantics, and
collects the successfully inserted and the successfully removed values in
call order.  A failed try_push or try_pop contributes nothing; a blocking
call that would spin forever makes the whole history impossible (none),
since control never returns from it. -/
def runOps : queue T → List (op T) → Option (queue T × List T × List T)
  | q, [] => some (q, [], [])
  | q, o :: rest =>
    match o with
    | .push v =>
      match emplace q v with
      | none => none
      | some q2 => (runOps q2 rest).map (fun r => (r.1, v :: r.2.1, r.2.2))
    | .try_push v =>
      match try_emplace q v with
      | (true, q2) => (runOps q2 rest).map (fun r => (r.1, v :: r.2.1, r.2.2))
      | (false, q2) => runOps q2 rest
    | .pop =>
      match pop q with
      | none => none
      | some (v, q2) => (runOps q2 rest).map (fun r => (r.1, r.2.1, v :: r.2.2))
    | .try_pop =>
      match try_pop q with
      | (some v, q2) => (runOps q2 rest).map (fun r => (r.1, r.2.1, v :: r.2.2))
      | (none, q2) => runOps q2 rest

/-! ### Arithmetic of tickets, slot indices and generations -/

lemma insCount_succ (cap n s : Nat) (hcap : 0 < cap) (hs : s < cap) :
    insCount cap (n + 1) s = insCount cap n s + (if s = n % cap then 1 else 0) := by
  have hm : n % cap < cap := Nat.mod_lt _ hcap
  have hrep : n + 1 = (n % cap + 1) + cap * (n / cap) := by
    have := Nat.mod_add_div n cap
    omega
  unfold insCount
  rcases Nat.lt_or_ge (n % cap + 1) cap with hlt | hge
  · rw [hrep, Nat.add_mul_div_left _ _ hcap, Nat.add_mul_mod_self_left,
      Nat.div_eq_of_lt hlt, Nat.mod_eq_of_lt hlt]
    split_ifs <;> omega
  · have heq : n % cap + 1 = cap := by omega
    rw [hrep, Nat.add_mul_div_left _ _ hcap, Nat.add_mul_mod_self_left, heq,
      Nat.div_self hcap, Nat.mod_self]
    split_ifs <;> omega

lemma insCount_add_cap (cap t s : Nat) (hcap : 0 < cap) :
    insCount cap (t + cap) s = insCount cap t s + 1 := by
  unfold insCount
  rw [Nat.add_div_right _ hcap, Nat.add_mod_right]
  split_ifs <;> omega

/-- Every ticket in a window shorter than one full generation beyond t has
already had its slot freed: the dequeue tickets below t cover slot h % cap
exactly h / cap times. -/
lemma insCount_eq_of_lt (cap t h : Nat) (h1 : t ≤ h) (h2 : h < t + cap) :
    insCount cap t (h % cap) = h / cap := by
  have hcap : 0 < cap := by omega
  have hc_le : t / cap ≤ h / cap := Nat.div_le_div_right h1
  have ha_le : h / cap ≤ t / cap + 1 := by
    have h3 : h / cap ≤ (t + cap) / cap := Nat.div_le_div_right (Nat.le_of_lt h2)
    rwa [Nat.add_div_right _ hcap] at h3
  have eh := Nat.mod_add_div h cap
  have et := Nat.mod_add_div t cap
  unfold insCount
  by_cases hbd : h % cap < t % cap
  · -- the window crosses a multiple of cap, so the quotients differ by one
    have hne : t / cap ≠ h / cap := by
      intro he
      rw [he] at et
      omega
    rw [if_pos hbd]
    omega
  · have hne : h / cap ≠ t / cap + 1 := by
      intro he
      rw [he, Nat.mul_succ] at eh
      omega
    rw [if_neg hbd]
    omega

/-- Two tickets less than one generation apart target different slots. -/
lemma mod_ne_of_between (cap a b : Nat) (h1 : a < b) (h2 : b < a + cap) :
    a % cap ≠ b % cap := by
  intro he
  have hmod : Nat.ModEq cap a b := he
  have hdvd : cap ∣ b - a := (Nat.modEq_iff_dvd' (Nat.le_of_lt h1)).mp hmod
  have := Nat.le_of_dvd (by omega) hdvd
  omega

/-- Ticket n itself is not yet counted among the tickets below n. -/
lemma insCount_self (cap n : Nat) : insCount cap n (n % cap) = n / cap := by
  unfold insCount
  simp

/-- While a reader for ticket t is still pending, the enqueue tickets below
head have covered slot t % cap exactly t / cap + 1 times. -/
lemma insCount_tail_pending (cap t h : Nat) (hcap : 0 < cap) (h1 : t < h)
    (h2 : h ≤ t + cap) :
    insCount cap h (t % cap) = t / cap + 1 := by
  have key : insCount cap h ((t + cap) % cap) = (t + cap) / cap :=
    insCount_eq_of_lt cap h (t + cap) h2 (by omega)
  rwa [Nat.add_mod_right, Nat.add_div_right _ hcap] at key

/-! ### The initial state -/

lemma WF_mkQueue (capacity : Nat) : WF (mkQueue T capacity) := by
  have hz : ∀ s, insCount capacity 0 s = 0 := by
    intro s
    unfold insCount
    simp
  refine ⟨by simp [mkQueue], by simp [mkQueue], by simp [mkQueue], ?_⟩
  intro s hs
  simp [mkQueue, hz, List.get_eq_getElem, List.getElem_replicate]

lemma absO_mkQueue (capacity : Nat) : absO (mkQueue T capacity) = [] := by
  unfold absO mkQueue
  simp

/-! ### The enqueue step -/

/-- When fewer than max_capacity tickets are in flight, the head slot has
cycled back to the expected even turn, so both insert paths succeed. -/
lemma emplace_succeeds (q : queue T) (v : T) (hwf : WF q)
    (hlt : q.head < q.tail + q.max_capacity) :
    try_emplace q v = (true, afterPush q v) ∧ emplace q v = some (afterPush q v) := by
  obtain ⟨hlen, hth, hht, hslot⟩ := hwf
  have hcap : 0 < q.max_capacity := by omega
  have hidx : get_idx q q.head < q.slots.length := by
    rw [hlen]
    exact Nat.mod_lt _ hcap
  obtain ⟨hle1, hle2, hturn, hsome⟩ := hslot _ hidx
  have hrc : insCount q.max_capacity q.tail (get_idx q q.head)
      = get_current_turn q q.head := insCount_eq_of_lt _ _ _ hth hlt
  have hic : insCount q.max_capacity q.head (get_idx q q.head)
      = get_current_turn q q.head := insCount_self _ _
  have hcond : get_current_turn q q.head * 2
      = (q.slots.get ⟨get_idx q q.head, hidx⟩).turn := by omega
  rw [List.get_eq_getElem] at hcond
  constructor
  · simp only [try_emplace]
    rw [List.getElem?_eq_getElem hidx]
    dsimp only
    rw [if_pos hcond]
    rfl
  · simp only [emplace]
    rw [List.getElem?_eq_getElem hidx]
    dsimp only
    rw [if_pos hcond]
    rfl

/-- When exactly max_capacity tickets are in flight the head slot still holds
the element of the previous generation (odd turn): try_emplace reports
fullness without touching the state, and emplace spins forever. -/
lemma emplace_blocked (q : queue T) (v : T) (hwf : WF q)
    (hfull : q.head = q.tail + q.max_capacity) :
    try_emplace q v = (false, q) ∧ emplace q v = none := by
  obtain ⟨hlen, hth, hht, hslot⟩ := hwf
  rcases Nat.eq_zero_or_pos q.max_capacity with hcap | hcap
  · have hnone : q.slots[get_idx q q.head]? = none := by
      apply List.getElem?_eq_none
      omega
    constructor
    · simp only [try_emplace]
      rw [hnone]
    · simp only [emplace]
      rw [hnone]
  · have hidx : get_idx q q.head < q.slots.length := by
      rw [hlen]
      exact Nat.mod_lt _ hcap
    obtain ⟨hle1, hle2, hturn, hsome⟩ := hslot _ hidx
    have hidx_eq : get_idx q q.head = q.tail % q.max_capacity := by
      unfold get_idx
      rw [hfull, Nat.add_mod_right]
    have hic : insCount q.max_capacity q.head (get_idx q q.head)
        = insCount q.max_capacity q.tail (get_idx q q.head) + 1 := by
      rw [hfull]
      exact insCount_add_cap _ _ _ hcap
    have hcond : get_current_turn q q.head * 2
        ≠ (q.slots.get ⟨get_idx q q.head, hidx⟩).turn := by omega
    rw [List.get_eq_getElem] at hcond
    constructor
    · simp only [try_emplace]
      rw [List.getElem?_eq_getElem hidx]
      dsimp only
      rw [if_neg hcond]
    · simp only [emplace]
      rw [List.getElem?_eq_getElem hidx]
      dsimp only
      rw [if_neg hcond]

/-! ### The dequeue step -/

/-- While a ticket is pending the tail slot holds its element at the expected
odd turn, so both remove paths succeed and return that element. -/
lemma pop_succeeds (q : queue T) (hwf : WF q) (hne : q.tail < q.head) :
    ∃ v, (q.slots[get_idx q q.tail]?).bind slot.storage = some v ∧
      pop q = some (v, afterPop q) ∧ try_pop q = (some v, afterPop q) := by
  obtain ⟨hlen, hth, hht, hslot⟩ := hwf
  have hcap : 0 < q.max_capacity := by omega
  have hidx : get_idx q q.tail < q.slots.length := by
    rw [hlen]
    exact Nat.mod_lt _ hcap
  obtain ⟨hle1, hle2, hturn, hsome⟩ := hslot _ hidx
  rw [List.get_eq_getElem] at hturn hsome
  dsimp only at hturn hsome
  have hrc : insCount q.max_capacity q.tail (get_idx q q.tail)
      = get_current_turn q q.tail := insCount_self _ _
  have hic : insCount q.max_capacity q.head (get_idx q q.tail)
      = get_current_turn q q.tail + 1 := insCount_tail_pending _ _ _ hcap hne hht
  have hpend : insCount q.max_capacity q.tail (get_idx q q.tail)
      < insCount q.max_capacity q.head (get_idx q q.tail) := by omega
  obtain ⟨v, hv⟩ := Option.isSome_iff_exists.mp (hsome.mpr hpend)
  have hcond : get_current_turn q q.tail * 2 + 1
      = q.slots[get_idx q q.tail].turn := by omega
  refine ⟨v, ?_, ?_, ?_⟩
  · rw [List.getElem?_eq_getElem hidx]
    simpa using hv
  · simp only [pop]
    rw [List.getElem?_eq_getElem hidx]
    dsimp only
    rw [if_pos hcond]
    simp only [slot.move]
    rw [hv]
    rfl
  · simp only [try_pop]
    rw [List.getElem?_eq_getElem hidx]
    dsimp only
    rw [if_pos hcond]
    simp only [slot.move]
    rw [hv]
    rfl

/-- With no ticket pending the tail slot turn is even: try_pop reports the
queue empty without touching the state, and pop spins forever. -/
lemma pop_blocked (q : queue T) (hwf : WF q) (hempty : q.head = q.tail) :
    try_pop q = (none, q) ∧ pop q = none := by
  obtain ⟨hlen, hth, hht, hslot⟩ := hwf
  rcases Nat.eq_zero_or_pos q.max_capacity with hcap | hcap
  · have hnone : q.slots[get_idx q q.tail]? = none := by
      apply List.getElem?_eq_none
      omega
    constructor
    · simp only [try_pop]
      rw [hnone]
    · simp only [pop]
      rw [hnone]
  · have hidx : get_idx q q.tail < q.slots.length := by
      rw [hlen]
      exact Nat.mod_lt _ hcap
    obtain ⟨hle1, hle2, hturn, hsome⟩ := hslot _ hidx
    rw [List.get_eq_getElem] at hturn
    dsimp only at hturn
    have heq : insCount q.max_capacity q.head (get_idx q q.tail)
        = insCount q.max_capacity q.tail (get_idx q q.tail) := by
      rw [hempty]
    have hcond : get_current_turn q q.tail * 2 + 1
        ≠ q.slots[get_idx q q.tail].turn := by omega
    constructor
    · simp only [try_pop]
      rw [List.getElem?_eq_getElem hidx]
      dsimp only
      rw [if_neg hcond]
    · simp only [pop]
      rw [List.getElem?_eq_getElem hidx]
      dsimp only
      rw [if_neg hcond]

/-! ### Preservation of well-formedness -/

lemma WF_afterPush (q : queue T) (v : T) (hwf : WF q)
    (hlt : q.head < q.tail + q.max_capacity) : WF (afterPush q v) := by
  obtain ⟨hlen, hth, hht, hslot⟩ := hwf
  have hcap : 0 < q.max_capacity := by omega
  have hidx : get_idx q q.head < q.slots.length := by
    rw [hlen]
    exact Nat.mod_lt _ hcap
  have hrc : insCount q.max_capacity q.tail (get_idx q q.head)
      = get_current_turn q q.head := insCount_eq_of_lt _ _ _ hth hlt
  have hic : insCount q.max_capacity q.head (get_idx q q.head)
      = get_current_turn q q.head := insCount_self _ _
  have hgi : get_idx q q.head = q.head % q.max_capacity := rfl
  refine ⟨by simp [afterPush, hlen], ?_, ?_, ?_⟩
  · simp only [afterPush]
    omega
  · simp only [afterPush]
    omega
  · intro s hs
    have hs2 : s < q.slots.length := by
      simp only [afterPush, List.length_set] at hs
      exact hs
    have hscap : s < q.max_capacity := by omega
    have hins := insCount_succ q.max_capacity q.head s hcap hscap
    simp only [afterPush, List.get_eq_getElem, List.getElem_set]
    by_cases hcaseq : get_idx q q.head = s
    · rw [if_pos hcaseq]
      rw [← hcaseq] at hins
      rw [if_pos hgi] at hins
      rw [← hcaseq]
      refine ⟨by omega, by omega, by dsimp only; omega, ?_⟩
      dsimp only [Option.isSome]
      constructor
      · intro _
        omega
      · intro _
        rfl
    · rw [if_neg hcaseq]
      have hne2 : ¬(s = q.head % q.max_capacity) := by
        intro hh
        exact hcaseq (hgi.trans hh.symm)
      rw [if_neg hne2] at hins
      obtain ⟨ha, hb, hc, hd⟩ := hslot s hs2
      rw [List.get_eq_getElem] at hc hd
      dsimp only at hc hd
      refine ⟨by omega, by omega, by omega, ?_⟩
      rw [hins]
      exact hd

lemma WF_afterPop (q : queue T) (hwf : WF q) (hne : q.tail < q.head) :
    WF (afterPop q) := by
  obtain ⟨hlen, hth, hht, hslot⟩ := hwf
  have hcap : 0 < q.max_capacity := by omega
  have hidx : get_idx q q.tail < q.slots.length := by
    rw [hlen]
    exact Nat.mod_lt _ hcap
  have hrc : insCount q.max_capacity q.tail (get_idx q q.tail)
      = get_current_turn q q.tail := insCount_self _ _
  have hic : insCount q.max_capacity q.head (get_idx q q.tail)
      = get_current_turn q q.tail + 1 := insCount_tail_pending _ _ _ hcap hne hht
  have hgi : get_idx q q.tail = q.tail % q.max_capacity := rfl
  refine ⟨by simp [afterPop, hlen], ?_, ?_, ?_⟩
  · simp only [afterPop]
    omega
  · simp only [afterPop]
    omega
  · intro s hs
    have hs2 : s < q.slots.length := by
      simp only [afterPop, List.length_set] at hs
      exact hs
    have hscap : s < q.max_capacity := by omega
    have hins := insCount_succ q.max_capacity q.tail s hcap hscap
    simp only [afterPop, List.get_eq_getElem, List.getElem_set]
    by_cases hcaseq : get_idx q q.tail = s
    · rw [if_pos hcaseq]
      rw [← hcaseq] at hins
      rw [if_pos hgi] at hins
      rw [← hcaseq]
      refine ⟨by omega, by omega, by dsimp only; omega, ?_⟩
      dsimp only [Option.isSome]
      constructor
      · intro hfalse
        cases hfalse
      · intro hh
        omega
    · rw [if_neg hcaseq]
      have hne2 : ¬(s = q.tail % q.max_capacity) := by
        intro hh
        exact hcaseq (hgi.trans hh.symm)
      rw [if_neg hne2] at hins
      obtain ⟨ha, hb, hc, hd⟩ := hslot s hs2
      rw [List.get_eq_getElem] at hc hd
      dsimp only at hc hd
      refine ⟨by omega, by omega, by omega, ?_⟩
      rw [hins]
      exact hd

/-! ### Evolution of the pending contents -/

lemma absO_afterPush (q : queue T) (v : T) (hwf : WF q)
    (hlt : q.head < q.tail + q.max_capacity) :
    absO (afterPush q v) = absO q ++ [some v] := by
  obtain ⟨hlen, hth, hht, hslot⟩ := hwf
  have hcap : 0 < q.max_capacity := by omega
  have hidx : q.head % q.max_capacity < q.slots.length := by
    rw [hlen]
    exact Nat.mod_lt _ hcap
  unfold absO
  simp only [afterPush, get_idx]
  have hrange : q.head + 1 - q.tail = (q.head - q.tail) + 1 := by omega
  rw [hrange, List.range_succ, List.map_append]
  congr 1
  · apply List.map_congr_left
    intro k hk
    rw [List.mem_range] at hk
    have hne : q.head % q.max_capacity ≠ (q.tail + k) % q.max_capacity :=
      Ne.symm (mod_ne_of_between _ _ _ (by omega) (by omega))
    rw [List.getElem?_set_ne hne]
  · have ht : q.tail + (q.head - q.tail) = q.head := by omega
    simp only [List.map_cons, List.map_nil, ht, List.getElem?_set_self hidx]
    rfl

lemma absO_afterPop (q : queue T) (v : T) (hwf : WF q) (hne : q.tail < q.head)
    (hv : (q.slots[get_idx q q.tail]?).bind slot.storage = some v) :
    absO q = some v :: absO (afterPop q) := by
  obtain ⟨hlen, hth, hht, hslot⟩ := hwf
  have hcap : 0 < q.max_capacity := by omega
  unfold absO
  simp only [afterPop, get_idx]
  simp only [get_idx] at hv
  have hrange : q.head - q.tail = (q.head - (q.tail + 1)) + 1 := by omega
  rw [hrange, List.range_succ_eq_map, List.map_cons, List.map_map]
  refine List.cons_eq_cons.mpr ⟨?_, ?_⟩
  · simpa using hv
  · apply List.map_congr_left
    intro k hk
    rw [List.mem_range] at hk
    have hne2 : q.tail % q.max_capacity ≠ (q.tail + 1 + k) % q.max_capacity :=
      mod_ne_of_between _ _ _ (by omega) (by omega)
    simp only [Function.comp_apply]
    rw [List.getElem?_set_ne hne2]
    have hrw : q.tail + Nat.succ k = q.tail + 1 + k := by omega
    rw [hrw]

/-! ### Failed non-blocking calls return the state untouched -/

lemma try_emplace_fail_eq (q : queue T) (v : T) (q2 : queue T)
    (h : try_emplace q v = (false, q2)) : q2 = q := by
  simp only [try_emplace] at h
  split at h
  · injection h with h1 h2
    exact h2.symm
  · split at h
    · injection h with h1 h2
      exact Bool.noConfusion h1
    · injection h with h1 h2
      exact h2.symm

lemma try_pop_fail_eq (q : queue T) (q2 : queue T)
    (h : try_pop q = (none, q2)) : q2 = q := by
  simp only [try_pop] at h
  split at h
  · injection h with h1 h2
    exact h2.symm
  · split at h
    · split at h
      · injection h with h1 h2
        exact h2.symm
      · injection h with h1 h2
        exact Option.noConfusion h1
    · injection h with h1 h2
      exact h2.symm

/-! ### Inversion of successful calls on well-formed states -/

lemma emplace_inv (q : queue T) (v : T) (q2 : queue T) (hwf : WF q)
    (h : emplace q v = some q2) :
    q.head < q.tail + q.max_capacity ∧ q2 = afterPush q v := by
  rcases Nat.lt_or_ge q.head (q.tail + q.max_capacity) with hlt | hge
  · obtain ⟨h1, h2⟩ := emplace_succeeds q v hwf hlt
    rw [h2] at h
    injection h with h3
    exact ⟨hlt, h3.symm⟩
  · have hfull : q.head = q.tail + q.max_capacity := by
      have := hwf.2.2.1
      omega
    obtain ⟨h1, h2⟩ := emplace_blocked q v hwf hfull
    rw [h2] at h
    exact Option.noConfusion h

lemma try_emplace_inv_true (q : queue T) (v : T) (q2 : queue T) (hwf : WF q)
    (h : try_emplace q v = (true, q2)) :
    q.head < q.tail + q.max_capacity ∧ q2 = afterPush q v := by
  rcases Nat.lt_or_ge q.head (q.tail + q.max_capacity) with hlt | hge
  · obtain ⟨h1, h2⟩ := emplace_succeeds q v hwf hlt
    rw [h1] at h
    injection h with h3 h4
    exact ⟨hlt, h4.symm⟩
  · have hfull : q.head = q.tail + q.max_capacity := by
      have := hwf.2.2.1
      omega
    obtain ⟨h1, h2⟩ := emplace_blocked q v hwf hfull
    rw [h1] at h
    injection h with h3 h4
    exact Bool.noConfusion h3

lemma pop_inv (q : queue T) (v : T) (q2 : queue T) (hwf : WF q)
    (h : pop q = some (v, q2)) :
    q.tail < q.head ∧ q2 = afterPop q ∧
      (q.slots[get_idx q q.tail]?).bind slot.storage = some v := by
  rcases Nat.lt_or_ge q.tail q.head with hlt | hge
  · obtain ⟨w, hw, hp, htp⟩ := pop_succeeds q hwf hlt
    rw [hp] at h
    injection h with h3
    injection h3 with h4 h5
    subst h4
    exact ⟨hlt, h5.symm, hw⟩
  · have hempty : q.head = q.tail := by
      have := hwf.2.1
      omega
    obtain ⟨h1, h2⟩ := pop_blocked q hwf hempty
    rw [h2] at h
    exact Option.noConfusion h

lemma try_pop_inv_some (q : queue T) (v : T) (q2 : queue T) (hwf : WF q)
    (h : try_pop q = (some v, q2)) :
    q.tail < q.head ∧ q2 = afterPop q ∧
      (q.slots[get_idx q q.tail]?).bind slot.storage = some v := by
  rcases Nat.lt_or_ge q.tail q.head with hlt | hge
  · obtain ⟨w, hw, hp, htp⟩ := pop_succeeds q hwf hlt
    rw [htp] at h
    injection h with h3 h4
    injection h3 with h5
    subst h5
    exact ⟨hlt, h4.symm, hw⟩
  · have hempty : q.head = q.tail := by
      have := hwf.2.1
      omega
    obtain ⟨h1, h2⟩ := pop_blocked q hwf hempty
    rw [h1] at h
    injection h with h3 h4
    exact Option.noConfusion h3

/-! ### The run-level invariant -/

/-- Along any history of atomic queue calls from a well-formed state, the
removed values followed by the still-pending contents equal the previously
pending contents followed by the inserted values. -/
lemma runOps_spec (ops : List (op T)) :
    ∀ q qf ps rs, WF q → runOps q ops = some (qf, ps, rs) →
      WF qf ∧ rs.map some ++ absO qf = absO q ++ ps.map some := by
  induction ops with
  | nil =>
    intro q qf ps rs hwf hrun
    simp only [runOps] at hrun
    injection hrun with hrun
    injection hrun with h1 hrun
    injection hrun with h2 h3
    subst h1
    subst h2
    subst h3
    exact ⟨hwf, by simp⟩
  | cons o rest ih =>
    intro q qf ps rs hwf hrun
    cases o with
    | push v =>
      simp only [runOps] at hrun
      split at hrun
      · exact Option.noConfusion hrun
      · next q2 hq2 =>
        obtain ⟨hlt, hq2e⟩ := emplace_inv q v q2 hwf hq2
        subst hq2e
        obtain ⟨r2, hrec, heq⟩ := Option.map_eq_some'.mp hrun
        obtain ⟨qf2, ps2, rs2⟩ := r2
        dsimp only at heq
        injection heq with he1 heq
        injection heq with he2 he3
        subst he1
        subst he2
        subst he3
        obtain ⟨hwf2, hinv⟩ := ih _ _ _ _ (WF_afterPush q v hwf hlt) hrec
        refine ⟨hwf2, ?_⟩
        rw [absO_afterPush q v hwf hlt] at hinv
        simp only [List.map_cons]
        rw [hinv, List.append_assoc, List.singleton_append]
    | try_push v =>
      simp only [runOps] at hrun
      split at hrun
      · next q2 hq2 =>
        obtain ⟨hlt, hq2e⟩ := try_emplace_inv_true q v q2 hwf hq2
        subst hq2e
        obtain ⟨r2, hrec, heq⟩ := Option.map_eq_some'.mp hrun
        obtain ⟨qf2, ps2, rs2⟩ := r2
        dsimp only at heq
        injection heq with he1 heq
        injection heq with he2 he3
        subst he1
        subst he2
        subst he3
        obtain ⟨hwf2, hinv⟩ := ih _ _ _ _ (WF_afterPush q v hwf hlt) hrec
        refine ⟨hwf2, ?_⟩
        rw [absO_afterPush q v hwf hlt] at hinv
        simp only [List.map_cons]
        rw [hinv, List.append_assoc, List.singleton_append]
      · next q2 hq2 =>
        have hq2e := try_emplace_fail_eq q v q2 hq2
        subst hq2e
        exact ih _ _ _ _ hwf hrun
    | pop =>
      simp only [runOps] at hrun
      split at hrun
      · exact Option.noConfusion hrun
      · next v q2 hq2 =>
        obtain ⟨hlt, hq2e, hv⟩ := pop_inv q v q2 hwf hq2
        subst hq2e
        obtain ⟨r2, hrec, heq⟩ := Option.map_eq_some'.mp hrun
        obtain ⟨qf2, ps2, rs2⟩ := r2
        dsimp only at heq
        injection heq with he1 heq
        injection heq with he2 he3
        subst he1
        subst he2
        subst he3
        obtain ⟨hwf2, hinv⟩ := ih _ _ _ _ (WF_afterPop q hwf hlt) hrec
        refine ⟨hwf2, ?_⟩
        rw [absO_afterPop q v hwf hlt hv]
        simp only [List.map_cons, List.cons_append, hinv]
    | try_pop =>
      simp only [runOps] at hrun
      split at hrun
      · next v q2 hq2 =>
        obtain ⟨hlt, hq2e, hv⟩ := try_pop_inv_some q v q2 hwf hq2
        subst hq2e
        obtain ⟨r2, hrec, heq⟩ := Option.map_eq_some'.mp hrun
        obtain ⟨qf2, ps2, rs2⟩ := r2
        dsimp only at heq
        injection heq with he1 heq
        injection heq with he2 he3
        subst he1
        subst he2
        subst he3
        obtain ⟨hwf2, hinv⟩ := ih _ _ _ _ (WF_afterPop q hwf hlt) hrec
        refine ⟨hwf2, ?_⟩
        rw [absO_afterPop q v hwf hlt hv]
        simp only [List.map_cons, List.cons_append, hinv]
      · next q2 hq2 =>
        have hq2e := try_pop_fail_eq q q2 hq2
        subst hq2e
        exact ih _ _ _ _ hwf hrun

/-! ### The claims -/

/-- C1: in any history of queue calls — an arbitrary interleaving of the
atomic operations issued by any number of producers and consumers — with N
successful inserts (emplace/push, or try_emplace/try_push returning true)
and N successful removes (pop, or try_pop returning a value), the multiset
of removed values equals the multiset of inserted values: no element is
lost and none is duplicated. -/
theorem c1_no_loss_no_duplication (capacity : Nat) (ops : List (op T))
    (qf : queue T) (ps rs : List T)
    (hrun : runOps (mkQueue T capacity) ops = some (qf, ps, rs))
    (hN : ps.length = rs.length) :
    (rs : Multiset T) = (ps : Multiset T) := by
  obtain ⟨hwf, hinv⟩ := runOps_spec ops _ qf ps rs (WF_mkQueue capacity) hrun
  rw [absO_mkQueue, List.nil_append] at hinv
  have hlen : rs.length + (absO qf).length = ps.length := by
    have hc := congrArg List.length hinv
    simpa using hc
  have habs : absO qf = [] := List.eq_nil_of_length_eq_zero (by omega)
  rw [habs, List.append_nil] at hinv
  have hrp : rs = ps :=
    List.map_injective_iff.mpr (Option.some_injective T) hinv
  rw [hrp]

/-- Witness for C1: capacity 2, two inserts then two removes; the removed
multiset equals the inserted one. -/
theorem c1_witness :
    (([1, 2] : List Nat) : Multiset Nat) = (([1, 2] : List Nat) : Multiset Nat) :=
  c1_no_loss_no_duplication 2 [op.try_push 1, op.try_push 2, op.pop, op.try_pop]
    { max_capacity := 2
      slots := [{ turn := 2, storage := none }, { turn := 2, storage := none }]
      head := 2
      tail := 2 }
    [1, 2] [1, 2] (by decide) rfl

/-- C3: in a single-producer single-consumer configuration — in particular
along any single-threaded history — values are removed in exactly the order
they were inserted: the list of removed values is the prefix of the list of
inserted values of its length, so the k-th successful remove returns the
k-th inserted value and pop returns the first-inserted value. -/
theorem c3_fifo_order (capacity : Nat) (ops : List (op T))
    (qf : queue T) (ps rs : List T)
    (hrun : runOps (mkQueue T capacity) ops = some (qf, ps, rs)) :
    rs = ps.take rs.length := by
  obtain ⟨hwf, hinv⟩ := runOps_spec ops _ qf ps rs (WF_mkQueue capacity) hrun
  rw [absO_mkQueue, List.nil_append] at hinv
  have h1 : (ps.map some).take rs.length = rs.map some := by
    rw [← hinv]
    exact List.take_left' (by simp)
  have h2 : (ps.take rs.length).map some = rs.map some := by
    rw [List.map_take, h1]
  exact (List.map_injective_iff.mpr (Option.some_injective T) h2).symm

/-- Witness for C3: capacity 3, inserts 5 then 6, one remove; the removed
list is the length-1 prefix of the inserted list. -/
theorem c3_witness : ([5] : List Nat) = ([5, 6] : List Nat).take 1 :=
  c3_fifo_order 3 [op.try_push 5, op.push 6, op.try_pop]
    { max_capacity := 3
      slots := [{ turn := 2, storage := none }, { turn := 1, storage := some 6 },
        { turn := 0, storage := none }]
      head := 2
      tail := 1 }
    [5, 6] [5] (by decide)

/-- C2: with capacity C and no removal in flight, try_emplace (and so
try_push) fails exactly on a queue already holding C elements (head = tail
+ C in a well-formed state) and leaves it untouched; whenever fewer than C
elements are held it succeeds; and after any successful removal the next
insert attempt succeeds. -/
theorem c2_capacity_bound (q : queue T) (v w : T) (hwf : WF q) :
    (q.head = q.tail + q.max_capacity →
      try_emplace q v = (false, q) ∧ try_push q v = (false, q)) ∧
    (q.head < q.tail + q.max_capacity → (try_emplace q v).1 = true) ∧
    (∀ u q2, pop q = some (u, q2) → (try_emplace q2 w).1 = true) := by
  refine ⟨?_, ?_, ?_⟩
  · intro hfull
    have hb := (emplace_blocked q v hwf hfull).1
    exact ⟨hb, hb⟩
  · intro hlt
    rw [(emplace_succeeds q v hwf hlt).1]
  · intro u q2 hpop
    obtain ⟨hlt, hq2e, hv⟩ := pop_inv q u q2 hwf hpop
    subst hq2e
    have hwf2 : WF (afterPop q) := WF_afterPop q hwf hlt
    have hlt2 : (afterPop q).head < (afterPop q).tail + (afterPop q).max_capacity := by
      have h1 := hwf.2.2.1
      simp only [afterPop]
      omega
    rw [(emplace_succeeds _ w hwf2 hlt2).1]

/-- Witness for C2, the concrete capacity-10 scenario: ten try_emplace calls
of 0..9 all return true (the runOps equation), the eleventh try_emplace
returns false on the full queue, pop returns the first-inserted value 0,
and a try_emplace after the pop returns true. -/
theorem c2_witness :
    runOps (mkQueue Nat 10)
      [op.try_push 0, op.try_push 1, op.try_push 2, op.try_push 3, op.try_push 4,
       op.try_push 5, op.try_push 6, op.try_push 7, op.try_push 8, op.try_push 9] =
      some ({ max_capacity := 10
              slots := [{ turn := 1, storage := some 0 }, { turn := 1, storage := some 1 },
                { turn := 1, storage := some 2 }, { turn := 1, storage := some 3 },
                { turn := 1, storage := some 4 }, { turn := 1, storage := some 5 },
                { turn := 1, storage := some 6 }, { turn := 1, storage := some 7 },
                { turn := 1, storage := some 8 }, { turn := 1, storage := some 9 }]
              head := 10
              tail := 0 }, [0, 1, 2, 3, 4, 5, 6, 7, 8, 9], []) ∧
    try_emplace
      ({ max_capacity := 10
         slots := [{ turn := 1, storage := some 0 }, { turn := 1, storage := some 1 },
           { turn := 1, storage := some 2 }, { turn := 1, storage := some 3 },
           { turn := 1, storage := some 4 }, { turn := 1, storage := some 5 },
           { turn := 1, storage := some 6 }, { turn := 1, storage := some 7 },
           { turn := 1, storage := some 8 }, { turn := 1, storage := some 9 }]
         head := 10
         tail := 0 } : queue Nat) 10 =
      (false, { max_capacity := 10
                slots := [{ turn := 1, storage := some 0 }, { turn := 1, storage := some 1 },
                  { turn := 1, storage := some 2 }, { turn := 1, storage := some 3 },
                  { turn := 1, storage := some 4 }, { turn := 1, storage := some 5 },
                  { turn := 1, storage := some 6 }, { turn := 1, storage := some 7 },
                  { turn := 1, storage := some 8 }, { turn := 1, storage := some 9 }]
                head := 10
                tail := 0 }) ∧
    pop ({ max_capacity := 10
           slots := [{ turn := 1, storage := some 0 }, { turn := 1, storage := some 1 },
             { turn := 1, storage := some 2 }, { turn := 1, storage := some 3 },
             { turn := 1, storage := some 4 }, { turn := 1, storage := some 5 },
             { turn := 1, storage := some 6 }, { turn := 1, storage := some 7 },
             { turn := 1, storage := some 8 }, { turn := 1, storage := some 9 }]
           head := 10
           tail := 0 } : queue Nat) =
      some (0, { max_capacity := 10
                 slots := [{ turn := 2, storage := none }, { turn := 1, storage := some 1 },
                   { turn := 1, storage := some 2 }, { turn := 1, storage := some 3 },
                   { turn := 1, storage := some 4 }, { turn := 1, storage := some 5 },
                   { turn := 1, storage := some 6 }, { turn := 1, storage := some 7 },
                   { turn := 1, storage := some 8 }, { turn := 1, storage := some 9 }]
                 head := 10
                 tail := 1 }) ∧
    (try_emplace
      ({ max_capacity := 10
         slots := [{ turn := 2, storage := none }, { turn := 1, storage := some 1 },
           { turn := 1, storage := some 2 }, { turn := 1, storage := some 3 },
           { turn := 1, storage := some 4 }, { turn := 1, storage := some 5 },
           { turn := 1, storage := some 6 }, { turn := 1, storage := some 7 },
           { turn := 1, storage := some 8 }, { turn := 1, storage := some 9 }]
         head := 10
         tail := 1 } : queue Nat) 10).1 = true := by
  refine ⟨by decide, ?_, by decide, ?_⟩
  · exact ((c2_capacity_bound
      ({ max_capacity := 10
         slots := [{ turn := 1, storage := some 0 }, { turn := 1, storage := some 1 },
           { turn := 1, storage := some 2 }, { turn := 1, storage := some 3 },
           { turn := 1, storage := some 4 }, { turn := 1, storage := some 5 },
           { turn := 1, storage := some 6 }, { turn := 1, storage := some 7 },
           { turn := 1, storage := some 8 }, { turn := 1, storage := some 9 }]
         head := 10
         tail := 0 } : queue Nat) 10 10 (by decide)).1 rfl).1
  · exact (c2_capacity_bound
      ({ max_capacity := 10
         slots := [{ turn := 1, storage := some 0 }, { turn := 1, storage := some 1 },
           { turn := 1, storage := some 2 }, { turn := 1, storage := some 3 },
           { turn := 1, storage := some 4 }, { turn := 1, storage := some 5 },
           { turn := 1, storage := some 6 }, { turn := 1, storage := some 7 },
           { turn := 1, storage := some 8 }, { turn := 1, storage := some 9 }]
         head := 10
         tail := 0 } : queue Nat) 10 10 (by decide)).2.2 0
      { max_capacity := 10
        slots := [{ turn := 2, storage := none }, { turn := 1, storage := some 1 },
          { turn := 1, storage := some 2 }, { turn := 1, storage := some 3 },
          { turn := 1, storage := some 4 }, { turn := 1, storage := some 5 },
          { turn := 1, storage := some 6 }, { turn := 1, storage := some 7 },
          { turn := 1, storage := some 8 }, { turn := 1, storage := some 9 }]
        head := 10
        tail := 1 } (by decide)

/-- C4: in every well-formed state each slot's storage holds a live value
exactly when its turn counter is odd; every queue operation preserves
well-formedness (and with it this invariant); and the slot destructor
destroys the contained value exactly when the turn is odd at teardown. -/
theorem c4_storage_parity (q : queue T) (hwf : WF q) :
    (∀ s : Nat, (hs : s < q.slots.length) →
      ((q.slots.get ⟨s, hs⟩).storage.isSome ↔ (q.slots.get ⟨s, hs⟩).turn % 2 = 1)) ∧
    (∀ v q2, emplace q v = some q2 → WF q2) ∧
    (∀ v b q2, try_emplace q v = (b, q2) → WF q2) ∧
    (∀ v q2, pop q = some (v, q2) → WF q2) ∧
    (∀ r q2, try_pop q = (r, q2) → WF q2) ∧
    (∀ sl : slot T, sl.turn % 2 = 1 → slot.dtor sl = slot.destroy sl) ∧
    (∀ sl : slot T, sl.turn % 2 = 0 → slot.dtor sl = sl) := by
  refine ⟨?_, ?_, ?_, ?_, ?_, ?_, ?_⟩
  · intro s hs
    obtain ⟨ha, hb, hc, hd⟩ := hwf.2.2.2 s hs
    rw [hd, hc]
    constructor
    · intro hlt
      omega
    · intro hpar
      omega
  · intro v q2 h
    obtain ⟨hlt, hq2e⟩ := emplace_inv q v q2 hwf h
    subst hq2e
    exact WF_afterPush q v hwf hlt
  · intro v b q2 h
    cases b with
    | false =>
      rw [try_emplace_fail_eq q v q2 h]
      exact hwf
    | true =>
      obtain ⟨hlt, hq2e⟩ := try_emplace_inv_true q v q2 hwf h
      subst hq2e
      exact WF_afterPush q v hwf hlt
  · intro v q2 h
    obtain ⟨hlt, hq2e, hv⟩ := pop_inv q v q2 hwf h
    subst hq2e
    exact WF_afterPop q hwf hlt
  · intro r q2 h
    cases r with
    | none =>
      rw [try_pop_fail_eq q q2 h]
      exact hwf
    | some v =>
      obtain ⟨hlt, hq2e, hv⟩ := try_pop_inv_some q v q2 hwf h
      subst hq2e
      exact WF_afterPop q hwf hlt
  · intro sl hodd
    unfold slot.dtor
    rw [if_pos (by omega)]
  · intro sl heven
    unfold slot.dtor
    rw [if_neg (by omega)]

/-- Witness for C4 on the well-formed one-slot queue holding a value at turn
1: the slot is live iff its turn is odd, and the slot destructor on a slot
with odd turn 3 destroys the contents. -/
theorem c4_witness :
    (((⟨1, [⟨1, some 5⟩], 1, 0⟩ : queue Nat).slots.get ⟨0, Nat.zero_lt_one⟩).storage.isSome ↔
      ((⟨1, [⟨1, some 5⟩], 1, 0⟩ : queue Nat).slots.get ⟨0, Nat.zero_lt_one⟩).turn % 2 = 1) ∧
    slot.dtor (⟨3, some 7⟩ : slot Nat) = slot.destroy ⟨3, some 7⟩ :=
  ⟨(c4_storage_parity (⟨1, [⟨1, some 5⟩], 1, 0⟩ : queue Nat) (by decide)).1 0 Nat.zero_lt_one,
   (c4_storage_parity (⟨1, [⟨1, some 5⟩], 1, 0⟩ : queue Nat) (by decide)).2.2.2.2.2.1
     ⟨3, some 7⟩ rfl⟩

/-- C5: a successful dequeue with ticket t = tail removes exactly the value
stored in slot t mod capacity, leaves that slot destroyed (no contents)
with turn 2*(t div capacity) + 2, and advances tail; try_pop wraps the
element in an optional on success and returns an empty optional exactly
when the tail slot turn differs from 2*(t div capacity) + 1 (the queue is
empty, tail being unchanged across the re-read in a quiescent state). -/
theorem c5_dequeue_effect (q : queue T) (hwf : WF q) :
    (∀ v q2, pop q = some (v, q2) →
      (q.slots[get_idx q q.tail]?).bind slot.storage = some v ∧
      q2.slots[get_idx q q.tail]? =
        some { turn := get_current_turn q q.tail * 2 + 2, storage := none } ∧
      q2.tail = q.tail + 1) ∧
    (∀ v q2, try_pop q = (some v, q2) →
      (q.slots[get_idx q q.tail]?).bind slot.storage = some v ∧
      q2.slots[get_idx q q.tail]? =
        some { turn := get_current_turn q q.tail * 2 + 2, storage := none } ∧
      q2.tail = q.tail + 1) ∧
    (∀ sl, q.slots[get_idx q q.tail]? = some sl →
      ((try_pop q).1 = none ↔ get_current_turn q q.tail * 2 + 1 ≠ sl.turn)) := by
  have hslotfact : ∀ (hlt : q.tail < q.head),
      (afterPop q).slots[get_idx q q.tail]? =
        some { turn := get_current_turn q q.tail * 2 + 2, storage := none } := by
    intro hlt
    have hcap : 0 < q.max_capacity := by
      have h1 := hwf.2.2.1
      omega
    have hidx : get_idx q q.tail < q.slots.length := by
      rw [hwf.1]
      exact Nat.mod_lt _ hcap
    simp only [afterPop]
    exact List.getElem?_set_self hidx
  refine ⟨?_, ?_, ?_⟩
  · intro v q2 h
    obtain ⟨hlt, hq2e, hv⟩ := pop_inv q v q2 hwf h
    subst hq2e
    exact ⟨hv, hslotfact hlt, rfl⟩
  · intro v q2 h
    obtain ⟨hlt, hq2e, hv⟩ := try_pop_inv_some q v q2 hwf h
    subst hq2e
    exact ⟨hv, hslotfact hlt, rfl⟩
  · intro sl hsl
    constructor
    · intro hnone hmatch
      -- a matching turn means a value is pending, so try_pop succeeds
      have hidx : get_idx q q.tail < q.slots.length := by
        rcases List.getElem?_eq_some_iff.mp hsl with ⟨hh, _⟩
        exact hh
      obtain ⟨ha, hb, hc, hd⟩ := hwf.2.2.2 _ hidx
      rw [List.get_eq_getElem] at hc hd
      dsimp only at hc hd
      have hsl2 : q.slots[get_idx q q.tail] = sl := by
        have := List.getElem?_eq_getElem hidx
        rw [this] at hsl
        injection hsl
      have hrc : insCount q.max_capacity q.tail (get_idx q q.tail)
          = get_current_turn q q.tail := insCount_self _ _
      have hne : q.tail < q.head := by
        rcases Nat.lt_or_ge q.tail q.head with h1 | h1
        · exact h1
        · exfalso
          have hempty : q.head = q.tail := by
            have := hwf.2.1
            omega
          rw [hsl2] at hc
          rw [hempty] at hc
          omega
      obtain ⟨w, hw, hp, htp⟩ := pop_succeeds q hwf hne
      rw [htp] at hnone
      exact Option.noConfusion hnone
    · intro hne
      rcases htp : try_pop q with ⟨r, q2⟩
      cases r with
      | none => rfl
      | some v =>
        exfalso
        obtain ⟨hlt, hq2e, hv⟩ := try_pop_inv_some q v q2 hwf htp
        obtain ⟨w, hw, hp, htp2⟩ := pop_succeeds q hwf hlt
        -- the successful try_pop found the matching turn
        have hcap : 0 < q.max_capacity := by
          have h1 := hwf.2.2.1
          omega
        have hidx : get_idx q q.tail < q.slots.length := by
          rw [hwf.1]
          exact Nat.mod_lt _ hcap
        obtain ⟨ha, hb, hc, hd⟩ := hwf.2.2.2 _ hidx
        rw [List.get_eq_getElem] at hc hd
        dsimp only at hc hd
        have hsl2 : q.slots[get_idx q q.tail] = sl := by
          have hg := List.getElem?_eq_getElem hidx
          rw [hg] at hsl
          injection hsl
        have hrc : insCount q.max_capacity q.tail (get_idx q q.tail)
            = get_current_turn q q.tail := insCount_self _ _
        have hic : insCount q.max_capacity q.head (get_idx q q.tail)
            = get_current_turn q q.tail + 1 :=
          insCount_tail_pending _ _ _ hcap hlt hwf.2.2.1
        rw [hsl2] at hc
        omega

/-- Witness for C5 on a capacity-2 queue holding the single value 4: try_pop
returns 4, destroys slot 0 and publishes turn 2, and tail advances. -/
theorem c5_witness :
    (((⟨2, [⟨1, some 4⟩, ⟨0, none⟩], 1, 0⟩ : queue Nat).slots[(0 : Nat)]?).bind slot.storage
      = some 4) ∧
    ((⟨2, [⟨2, none⟩, ⟨0, none⟩], 1, 1⟩ : queue Nat).slots[(0 : Nat)]? =
      some ⟨2, none⟩) ∧
    (⟨2, [⟨2, none⟩, ⟨0, none⟩], 1, 1⟩ : queue Nat).tail = 1 :=
  (c5_dequeue_effect (⟨2, [⟨1, some 4⟩, ⟨0, none⟩], 1, 0⟩ : queue Nat) (by decide)).2.1
    4 (⟨2, [⟨2, none⟩, ⟨0, none⟩], 1, 1⟩ : queue Nat) (by decide)

/-- C6: for every ticket i and positive capacity, the selected slot is
i mod capacity and the expected generation is i div capacity, both with the
nominal capacity as modulus/divisor; the selected index is strictly below
the capacity, so the extra allocated slot (at index capacity) is never
produced by get_idx. -/
theorem c6_index_generation (q : queue T) (i : Nat) (hcap : 0 < q.max_capacity) :
    get_idx q i = i % q.max_capacity ∧
    get_current_turn q i = i / q.max_capacity ∧
    get_idx q i < q.max_capacity :=
  ⟨rfl, rfl, Nat.mod_lt _ hcap⟩

/-- Witness for C6 at capacity 10 and ticket 13: slot 3, generation 1,
index below 10. -/
theorem c6_witness :
    get_idx (mkQueue Nat 10) 13 = 13 % 10 ∧
    get_current_turn (mkQueue Nat 10) 13 = 13 / 10 ∧
    get_idx (mkQueue Nat 10) 13 < 10 :=
  c6_index_generation (mkQueue Nat 10) 13 (by decide)

/-- C7: blocking emplace (and push) has no failure return: on a well-formed
queue below capacity it terminates, constructing the element and publishing
turn 2g+1 in its ticket slot; on a permanently full queue it busy-waits
forever (the divergent outcome none); the non-blocking try operations never
suspend and always produce a definite success/failure value. -/
theorem c7_blocking_insert (q : queue T) (v : T) (hwf : WF q) :
    (q.head < q.tail + q.max_capacity →
      emplace q v = some (afterPush q v) ∧ push q v = some (afterPush q v) ∧
      (afterPush q v).slots[get_idx q q.head]? =
        some { turn := get_current_turn q q.head * 2 + 1, storage := some v }) ∧
    (q.head = q.tail + q.max_capacity →
      emplace q v = none ∧ push q v = none) ∧
    ((try_emplace q v).1 = true ∨ (try_emplace q v).1 = false) ∧
    ((try_pop q).1 = none ∨ ∃ u, (try_pop q).1 = some u) := by
  refine ⟨?_, ?_, ?_, ?_⟩
  · intro hlt
    have hcap : 0 < q.max_capacity := by
      have h1 := hwf.2.1
      omega
    have hidx : get_idx q q.head < q.slots.length := by
      rw [hwf.1]
      exact Nat.mod_lt _ hcap
    have hemp := (emplace_succeeds q v hwf hlt).2
    refine ⟨hemp, hemp, ?_⟩
    simp only [afterPush]
    exact List.getElem?_set_self hidx
  · intro hfull
    have hemp := (emplace_blocked q v hwf hfull).2
    exact ⟨hemp, hemp⟩
  · cases htep : (try_emplace q v).1 with
    | true => exact Or.inl rfl
    | false => exact Or.inr rfl
  · cases htp : (try_pop q).1 with
    | none => exact Or.inl rfl
    | some u => exact Or.inr ⟨u, rfl⟩

/-- Witness for C7: on the full capacity-1 queue the blocking emplace spins
forever, and on the same queue below-capacity facts hold after one pop. -/
theorem c7_witness :
    emplace (⟨1, [⟨1, some 3⟩], 1, 0⟩ : queue Nat) 9 = none ∧
    push (⟨1, [⟨1, some 3⟩], 1, 0⟩ : queue Nat) 9 = none :=
  (c7_blocking_insert (⟨1, [⟨1, some 3⟩], 1, 0⟩ : queue Nat) 9 (by decide)).2.1 rfl

/-- C8: construction fails with the modelled std::bad_alloc exactly when no
backing address is obtained or the obtained address does not satisfy the
required slot alignment; the queue operations themselves have no error
outcome: every call returns an ordinary value (success flag or optional),
so failure is signalled only through return values. -/
theorem c8_construction_error (capacity : Nat) (alloc : Option Nat) (align : Nat) :
    ((∃ qq : queue T, queueCtor T capacity alloc align = .ok qq) ↔
      (∃ addr, alloc = some addr ∧ addr % align = 0)) ∧
    (∀ (q : queue T) (v : T), try_emplace q v = ((try_emplace q v).1, (try_emplace q v).2)) ∧
    (∀ q : queue T, try_pop q = ((try_pop q).1, (try_pop q).2)) := by
  refine ⟨?_, fun q v => rfl, fun q => rfl⟩
  cases alloc with
  | none =>
    constructor
    · intro hok
      obtain ⟨qq, hq⟩ := hok
      simp only [queueCtor] at hq
      exact Except.noConfusion hq
    · intro hsome
      obtain ⟨addr, ha, hm⟩ := hsome
      exact Option.noConfusion ha
  | some addr =>
    constructor
    · intro hok
      obtain ⟨qq, hq⟩ := hok
      simp only [queueCtor] at hq
      split at hq
      · exact Except.noConfusion hq
      · next hcond =>
        refine ⟨addr, rfl, ?_⟩
        omega
    · intro hsome
      obtain ⟨addr2, ha, hm⟩ := hsome
      injection ha with ha2
      subst ha2
      refine ⟨mkQueue T capacity, ?_⟩
      simp only [queueCtor]
      rw [if_neg (by omega)]

/-- C9: a failed non-blocking call is atomic with no partial effect: when
try_emplace returns false or try_pop returns an empty optional, the
returned state — head, tail, every slot turn and every slot's contents —
is exactly the input state. -/
theorem c9_failed_try_no_effect (q : queue T) (v : T) :
    (∀ q2, try_emplace q v = (false, q2) → q2 = q) ∧
    (∀ q2, try_pop q = (none, q2) → q2 = q) :=
  ⟨fun q2 h => try_emplace_fail_eq q v q2 h, fun q2 h => try_pop_fail_eq q q2 h⟩

/-- Witness for C9: the failing try_emplace on a full capacity-1 queue and
the failing try_pop on an empty queue both return their input state. -/
theorem c9_witness :
    ((⟨1, [⟨1, some 3⟩], 1, 0⟩ : queue Nat) = (⟨1, [⟨1, some 3⟩], 1, 0⟩ : queue Nat)) ∧
    (mkQueue Nat 1 = mkQueue Nat 1) :=
  ⟨(c9_failed_try_no_effect (⟨1, [⟨1, some 3⟩], 1, 0⟩ : queue Nat) 7).1
      (⟨1, [⟨1, some 3⟩], 1, 0⟩ : queue Nat) (by decide),
   (c9_failed_try_no_effect (mkQueue Nat 1) 7).2 (mkQueue Nat 1) (by decide)⟩

/-- C10: the constructor performs no validation of the capacity argument: it
accepts capacity 0 (given an aligned allocation it returns a queue whose
max_capacity is 0), and the index/generation helpers then compute i % 0 and
i / 0 — in the C++ source a division by zero, undefined behaviour, on every
enqueue/dequeue path (Lean totalizes both, which is what makes these
equations statable). -/
theorem c10_zero_capacity (i : Nat) :
    queueCtor T 0 (some 0) 1 = .ok (mkQueue T 0) ∧
    (mkQueue T 0).max_capacity = 0 ∧
    get_idx (mkQueue T 0) i = i % 0 ∧
    get_current_turn (mkQueue T 0) i = i / 0 := by
  refine ⟨?_, rfl, rfl, rfl⟩
  simp [queueCtor]

end zeus
